import Mathlib

/-!
# Verification of `scripts/template-evolver.py`

A shallow embedding of the template-evolution pipeline:
`load_jsonl` / `load_json` (record loaders), `aggregate_modifications`
(modification aggregator), `load_template_outcomes` (outcome aggregator),
`load_confidence_scores` (confidence loader) and `generate_proposals`
(proposal generator), followed by theorems settling the specification's
claims about the pipeline.

Modelling conventions:
* JSON records are structures of `Option`-valued fields; a missing key is
  `none` (Python's `dict.get` returning `None`).
* Python float arithmetic on the rates and thresholds is modelled by exact
  rationals (`ℚ`); the thresholds `0.70`, `0.75` become `70/100`, `75/100`.
* Python dicts (which preserve insertion order) are modelled by
  association lists updated in place; Python sets are modelled by
  duplicate-free lists (only their size is ever used).
* `try`/`except` around per-line JSON parsing is modelled by per-line
  parse functions returning `Option`.
-/

namespace TemplateEvolver

/-- A record of the modifications JSONL log (`ModificationEvent`).
Each field may be absent, as with `dict.get`. -/
structure ModRecord where
  template_id : Option String
  project_path : Option String
  type : Option String
  path : Option String
deriving DecidableEq

/-- A record of the outcomes JSONL log (`OutcomeEvent`). -/
structure OutcomeRecord where
  template_id : Option String
  outcome : Option String
deriving DecidableEq

/-- A record of the confidence-scores JSON document (`ConfidenceEntry`). -/
structure ConfRecord where
  template_id : Option String
  confidence_score : Option ℚ
deriving DecidableEq

/-- Python truthiness of an optional string: `None` and `""` are falsy. -/
def truthy : Option String → Bool
  | none => false
  | some s => !(s == "")

/-- Thresholds from the configuration block of the script. -/
def ADOPTION_THRESHOLD : ℚ := 70 / 100

/-- `WIN_RATE_THRESHOLD = 0.75`. -/
def WIN_RATE_THRESHOLD : ℚ := 75 / 100

/-- `CONFIDENCE_THRESHOLD = 0.70`. -/
def CONFIDENCE_THRESHOLD : ℚ := 70 / 100

/-- Model of Python's `str.split(sep)` for a one-character separator,
right-to-left structurally on the character list (`"".split(sep)` is
`[""]`, separators at the ends produce empty fields). -/
def splitChar (sep : Char) : List Char → List (List Char)
  | [] => [[]]
  | c :: cs =>
    let r := splitChar sep cs
    if c = sep then [] :: r
    else (c :: r.headD []) :: r.tail

/-- Python `s.split(sep)` on strings. -/
def pySplit (s : String) (sep : Char) : List String :=
  (splitChar sep s.toList).map String.mk

/-- Model of Python's `str.strip()`: drop leading and trailing whitespace
(the ASCII whitespace characters; the JSONL logs contain no exotic
Unicode spacing). -/
def pyStrip (s : String) : String :=
  String.mk (((s.toList.dropWhile Char.isWhitespace).reverse.dropWhile
    Char.isWhitespace).reverse)

/-- Decimal digit value of a character. -/
def digitVal? (c : Char) : Option Nat :=
  if c.isDigit then some (c.toNat - 48) else none

/-- Model of Python's `int(s)` for the nonnegative decimal literals that
occur as version components (sign/whitespace forms never arise here);
`none` models the `ValueError`. -/
def parseNat (s : String) : Option Nat :=
  match s.toList with
  | [] => none
  | cs => cs.foldl (fun acc c => acc.bind (fun n => (digitVal? c).map (fun d => n * 10 + d)))
      (some 0)

/-- Model of `load_jsonl`: a missing file (`none`) yields `[]`; otherwise each
non-blank line is parsed independently and lines that fail to parse
(`parseLine` returns `none`, modelling the caught `JSONDecodeError`)
are skipped. -/
def load_jsonl {α : Type} (file : Option (List String)) (parseLine : String → Option α) :
    List α :=
  match file with
  | none => []
  | some lines =>
    lines.foldl (fun records line =>
      if pyStrip line ≠ "" then
        match parseLine line with
        | some r => records ++ [r]
        | none => records
      else records) []

/-- Model of `load_json`: a missing file yields `[]`, otherwise the parsed document.
(The source lets a malformed document raise to the top level; that fatal
path carries no data and is outside this model.) -/
def load_json {α : Type} (file : Option (List α)) : List α :=
  file.getD []

/-- Per-template accumulator of the modification aggregator:
`{'projects': set(), 'additions': defaultdict(int)}`. -/
structure TemplateAcc where
  projects : List String
  additions : List (String × Nat)
deriving DecidableEq

/-- Model of `data['projects'].add(project_path)`: insert into the set of
distinct projects (no effect when already present). -/
def addProject (ps : List String) (p : String) : List String :=
  if p ∈ ps then ps else ps ++ [p]

/-- Model of `data['additions'][path] += 1` on a `defaultdict(int)`: increment the
entry in place, creating it with value `1` when absent. -/
def bumpAddition : List (String × Nat) → String → List (String × Nat)
  | [], path => [(path, 1)]
  | (k, v) :: rest, path =>
    if k = path then (k, v + 1) :: rest
    else (k, v) :: bumpAddition rest path

/-- Model of `template_mods[template_id]` on the outer `defaultdict`, followed by a
mutation `f` of the per-template accumulator: update the entry in place,
creating a fresh accumulator when the key is absent. -/
def updateTemplate : List (String × TemplateAcc) → String → (TemplateAcc → TemplateAcc) →
    List (String × TemplateAcc)
  | [], tid, f => [(tid, f ⟨[], []⟩)]
  | (k, v) :: rest, tid, f =>
    if k = tid then (k, f v) :: rest
    else (k, v) :: updateTemplate rest tid f

/-- Effect of one kept event on its template's accumulator: record the
project and, when the type is `directory_added` or `file_added`, bump the
per-path counter under `mod.get('path', '')`. -/
def applyMod (m : ModRecord) (acc : TemplateAcc) : TemplateAcc :=
  let acc1 : TemplateAcc :=
    { acc with projects := addProject acc.projects (m.project_path.getD "") }
  if m.type == some "directory_added" || m.type == some "file_added" then
    { acc1 with additions := bumpAddition acc1.additions (m.path.getD "") }
  else acc1

/-- The body of the event loop of `aggregate_modifications`: drop the event
unless both `template_id` and `project_path` are truthy, otherwise apply it
to its template's accumulator. -/
def processMod (st : List (String × TemplateAcc)) (m : ModRecord) :
    List (String × TemplateAcc) :=
  if truthy m.template_id && truthy m.project_path then
    updateTemplate st (m.template_id.getD "") (applyMod m)
  else st

/-- Per-path statistics in the aggregated pattern. -/
structure PathStats where
  count : Nat
  adoption_rate : ℚ
deriving DecidableEq

/-- Aggregated pattern of one template. -/
structure TemplatePattern where
  total_projects : Nat
  additions : List (String × PathStats)
deriving DecidableEq

/-- The second phase of `aggregate_modifications`: templates with an empty
project set are dropped (`continue`), otherwise `total_projects` is the set
size and each tracked path gets `adoption_rate = count / total_projects`. -/
def patOf (acc : TemplateAcc) : Option TemplatePattern :=
  if acc.projects.length = 0 then none
  else some
    { total_projects := acc.projects.length
      additions := acc.additions.map (fun pc =>
        (pc.1, { count := pc.2
                 adoption_rate := (pc.2 : ℚ) / (acc.projects.length : ℚ) })) }

/-- Model of `aggregate_modifications`, taking the already-loaded modification
records (the composition with `load_jsonl` happens in `main`). -/
def aggregate_modifications (mods : List ModRecord) : List (String × TemplatePattern) :=
  (mods.foldl processMod []).filterMap (fun p => (patOf p.2).map (fun q => (p.1, q)))

/-- The body of the event loop of `load_template_outcomes`:
`data['total'] += 1`, and `data['wins'] += 1` when the outcome is a win,
in-place on the `defaultdict` keyed by template, creating `(0, 0)` first. -/
def bumpOutcome : List (String × Nat × Nat) → String → Bool → List (String × Nat × Nat)
  | [], tid, isWin => [(tid, (if isWin then 1 else 0), 1)]
  | (k, w, t) :: rest, tid, isWin =>
    if k = tid then (k, (if isWin then w + 1 else w), t + 1) :: rest
    else (k, w, t) :: bumpOutcome rest tid isWin

/-- Model of `load_template_outcomes`, taking the already-loaded outcome records:
events without a truthy `template_id` are dropped; afterwards
`win_rates[tid] = wins / total` (the `total = 0` branch of the source,
yielding the neutral `0.5`, is kept although no accumulated entry can
have `total = 0`). -/
def load_template_outcomes (outcomes : List OutcomeRecord) : List (String × ℚ) :=
  let acc := outcomes.foldl (fun st o =>
    if truthy o.template_id then
      bumpOutcome st (o.template_id.getD "") (o.outcome == some "win")
    else st) []
  acc.map (fun kwt => (kwt.1, if 0 < kwt.2.2 then (kwt.2.1 : ℚ) / (kwt.2.2 : ℚ) else 1 / 2))

/-- Model of `confidence_map[template_id] = confidence`: plain dict assignment,
overwriting in place (the key may be `None` when the entry lacks a
`template_id`). -/
def setConfidence : List (Option String × ℚ) → Option String → ℚ → List (Option String × ℚ)
  | [], k, v => [(k, v)]
  | (k1, v1) :: rest, k, v =>
    if k1 = k then (k1, v) :: rest
    else (k1, v1) :: setConfidence rest k v

/-- Model of `load_confidence_scores`, taking the already-loaded entries:
builds `template_id → confidence_score` with the per-entry default `0.0`. -/
def load_confidence_scores (scores : List ConfRecord) : List (Option String × ℚ) :=
  scores.foldl (fun m s => setConfidence m s.template_id (s.confidence_score.getD 0)) []

/-- Model of `win_rates.get(template_id, 0.5)` as used by the proposal generator. -/
def usedWinRate (win_rates : List (String × ℚ)) (tid : String) : ℚ :=
  (win_rates.lookup tid).getD (1 / 2)

/-- Model of `confidence_scores.get(template_id, 0.0)` as used by the proposal
generator (the map's keys are optional strings, a pattern key is a
plain string). -/
def usedConfidence (confidence_scores : List (Option String × ℚ)) (tid : String) : ℚ :=
  (confidence_scores.lookup (some tid)).getD 0

/-- Model of `PurePosixPath(p).name` restricted to relative paths as they occur in
the logs: empty and `.` components are dropped, the name is the final
remaining component (or `""` for an empty path). -/
def pathName (p : String) : String :=
  (((pySplit p '/').filter (fun c => c ≠ "" && c ≠ ".")).getLast?).getD ""

/-- Model of `PurePosixPath(p).suffix`: with `i` the index of the last dot of the
name, the suffix is `name[i:]` when `0 < i < len(name) - 1`, else `""`. -/
def pathSuffix (p : String) : String :=
  let name := (pathName p).toList
  match name.reverse.findIdx? (fun c => c = '.') with
  | none => ""
  | some j =>
    let i := name.length - 1 - j
    if 0 < i ∧ i < name.length - 1 then String.mk (name.drop i) else ""

/-- Python's `round` to an integer: round half to even. -/
def roundHalfEven (x : ℚ) : ℤ :=
  if x - ⌊x⌋ < 1 / 2 then ⌊x⌋
  else if 1 / 2 < x - ⌊x⌋ then ⌊x⌋ + 1
  else if ⌊x⌋ % 2 = 0 then ⌊x⌋ else ⌊x⌋ + 1

/-- Model of `round(x, 4)` on an exact rational. -/
def round4 (x : ℚ) : ℚ :=
  (roundHalfEven (x * 10000) : ℚ) / 10000

/-- A qualifying change of a proposal. -/
structure Change where
  type : String
  path : String
  adoption_rate : ℚ
  projects_count : Nat
deriving DecidableEq

/-- The qualifying-changes filter of `generate_proposals`: a tracked path
qualifies when `adoption_rate >= ADOPTION_THRESHOLD`; it is classified as
`directory` exactly when `Path(path).suffix` is empty. -/
def qualifyingChange (path : String) (stats : PathStats) : Option Change :=
  if ADOPTION_THRESHOLD ≤ stats.adoption_rate then
    some { type := if pathSuffix path = "" then "directory" else "file"
           path := path
           adoption_rate := round4 stats.adoption_rate
           projects_count := stats.count }
  else none

/-- All qualifying changes of a template, in tracked order. -/
def qualifyingChanges (adds : List (String × PathStats)) : List Change :=
  adds.filterMap (fun ps => qualifyingChange ps.1 ps.2)

/-- Formatting `f"{n:04d}"` of a counter value: decimal digits left-padded with
zeros to width (at least) 4. -/
def pad4 (n : Nat) : String :=
  let s := toString n
  if s.length < 4 then String.mk (List.replicate (4 - s.length) '0') ++ s else s

/-- The version bump: split on `.` into exactly three components, parse the
minor as an integer, increment it, reset the patch to `0`; `none` models
the exceptions `ValueError` / unpacking failure (unreachable in the
pipeline, where the current version is the literal `"1.0.0"`). -/
def bumpVersion (v : String) : Option String :=
  match pySplit v '.' with
  | [major, minor, _patch] =>
    (parseNat minor).map (fun m => major ++ "." ++ toString (m + 1) ++ ".0")
  | _ => none

/-- An evolution proposal (the `rationale` sentence and the `created_at`
wall-clock timestamp are not modelled; `metrics` is inlined). -/
structure Proposal where
  proposal_id : String
  template_id : String
  current_version : String
  proposed_version : String
  changes : List Change
  win_rate : ℚ
  confidence_score : ℚ
  total_projects_analyzed : Nat
  changes_count : Nat
  status : String
deriving DecidableEq

/-- The proposal built for a surviving template, with counter value `pid`. -/
def mkProposal (pid : Nat) (tid : String) (data : TemplatePattern) (wr conf : ℚ)
    (qc : List Change) : Proposal :=
  let current_version := "1.0.0"
  { proposal_id := "PROP-" ++ pad4 pid
    template_id := tid
    current_version := current_version
    proposed_version := (bumpVersion current_version).getD ""
    changes := qc
    win_rate := round4 wr
    confidence_score := round4 conf
    total_projects_analyzed := data.total_projects
    changes_count := qc.length
    status := "pending" }

/-- The template loop of `generate_proposals`, carrying the counter
`proposal_id` (incremented only when a proposal is appended): skip when
`win_rate < WIN_RATE_THRESHOLD`, or `confidence < CONFIDENCE_THRESHOLD`,
or no tracked path qualifies; otherwise emit a proposal. -/
def genAux (win_rates : List (String × ℚ)) (confidence_scores : List (Option String × ℚ)) :
    List (String × TemplatePattern) → Nat → List Proposal
  | [], _ => []
  | (tid, data) :: rest, pid =>
    let wr := usedWinRate win_rates tid
    let conf := usedConfidence confidence_scores tid
    if wr < WIN_RATE_THRESHOLD then genAux win_rates confidence_scores rest pid
    else if conf < CONFIDENCE_THRESHOLD then genAux win_rates confidence_scores rest pid
    else
      let qc := qualifyingChanges data.additions
      if qc.isEmpty then genAux win_rates confidence_scores rest pid
      else mkProposal pid tid data wr conf qc :: genAux win_rates confidence_scores rest (pid + 1)

/-- Model of `generate_proposals`: the counter starts at 1. -/
def generate_proposals (patterns : List (String × TemplatePattern))
    (win_rates : List (String × ℚ)) (confidence_scores : List (Option String × ℚ)) :
    List Proposal :=
  genAux win_rates confidence_scores patterns 1

/-- Model of `main`, on an abstract file system: each input is `none` when the file
does not exist, `some` its content otherwise; per-line JSON parsing is the
given parse functions. The result is the document written to the output
file (`save_proposals` writes the proposal list; the no-proposal branch
writes `[]`, which coincides with the list) together with the process exit
status of this success path. -/
def main (modsFile outsFile : Option (List String)) (confFile : Option (List ConfRecord))
    (parseMod : String → Option ModRecord) (parseOut : String → Option OutcomeRecord) :
    List Proposal × Nat :=
  let patterns := aggregate_modifications (load_jsonl modsFile parseMod)
  let win_rates := load_template_outcomes (load_jsonl outsFile parseOut)
  let confidence_scores := load_confidence_scores (load_json confFile)
  let proposals := generate_proposals patterns win_rates confidence_scores
  (proposals, 0)

/-- Predicate describing the modification events the aggregator counts for a
given template: both `template_id` and `project_path` are truthy and the
`template_id` is the given one. -/
def isCounted (tid : String) (m : ModRecord) : Bool :=
  truthy m.template_id && truthy m.project_path && (m.template_id.getD "" == tid)

/-- Predicate describing the events that bump the per-path addition counter
of a given template for a given path. -/
def isAddition (tid path : String) (m : ModRecord) : Bool :=
  isCounted tid m && (m.type == some "directory_added" || m.type == some "file_added")
    && (m.path.getD "" == path)

/-- List of `project_path` values of the counted events of a template, in
log order and with duplicates. -/
def projectPathsOf (mods : List ModRecord) (tid : String) : List String :=
  (mods.filter (isCounted tid)).map (fun m => m.project_path.getD "")

/-- Number of addition events of a template for a path in the log. -/
def additionCount (mods : List ModRecord) (tid path : String) : Nat :=
  (mods.filter (fun m => isAddition tid path m)).length

/-- Invariant the aggregation loop maintains per template accumulator,
relative to the prefix `done` of processed events. -/
def InvAcc (done : List ModRecord) (tid : String) (acc : TemplateAcc) : Prop :=
  acc.projects.Nodup ∧
  (∀ p, p ∈ acc.projects ↔ p ∈ projectPathsOf done tid) ∧
  acc.projects ≠ [] ∧
  (acc.additions.map Prod.fst).Nodup ∧
  (∀ path, ((acc.additions.lookup path).getD 0) = additionCount done tid path) ∧
  (∀ pc ∈ acc.additions, 1 ≤ pc.2)

/-- Invariant the aggregation loop maintains on its accumulator map. -/
def Inv (done : List ModRecord) (st : List (String × TemplateAcc)) : Prop :=
  (st.map Prod.fst).Nodup ∧
  ∀ tid, (st.lookup tid = none → projectPathsOf done tid = []) ∧
    ∀ acc, st.lookup tid = some acc → InvAcc done tid acc

/-- Sample aggregated patterns: one template with one fully adopted path. -/
def SamplePatterns : List (String × TemplatePattern) :=
  [("T1", { total_projects := 1, additions := [("hooks", { count := 1, adoption_rate := 1 })] })]

/-- Sample win-rate map passing the threshold. -/
def SampleWinRates : List (String × ℚ) := [("T1", 4 / 5)]

/-- Sample confidence map passing the threshold. -/
def SampleConfidence : List (Option String × ℚ) := [(some "T1", 4 / 5)]

/-- The proposal the generator emits on the sample inputs. -/
def SampleProposal : Proposal :=
  { proposal_id := "PROP-0001"
    template_id := "T1"
    current_version := "1.0.0"
    proposed_version := "1.1.0"
    changes := [{ type := "directory", path := "hooks", adoption_rate := 1, projects_count := 1 }]
    win_rate := 4 / 5
    confidence_score := 4 / 5
    total_projects_analyzed := 1
    changes_count := 1
    status := "pending" }

/-- Sample duplicated modification event (same project, same path, twice). -/
def DupEvent : ModRecord :=
  { template_id := some "T", project_path := some "P", type := some "file_added", path := some "a" }

section Base

variable {α β : Type} [DecidableEq α] [BEq α] [LawfulBEq α]

/-- Unfolding of `List.lookup` on a cons cell, with propositional equality. -/
theorem lookup_cons1 (a k : α) (b : β) (l : List (α × β)) :
    ((k, b) :: l).lookup a = if a = k then some b else l.lookup a := by
  by_cases h : a = k
  · subst h; simp [List.lookup]
  · have hb : (a == k) = false := beq_eq_false_iff_ne.mpr h
    simp [List.lookup, hb, h]

/-- Lookup fails exactly on absent keys. -/
theorem lookup_eq_none_iff (l : List (α × β)) (a : α) :
    l.lookup a = none ↔ a ∉ l.map Prod.fst := by
  induction l with
  | nil => simp
  | cons p rest ih =>
    obtain ⟨k, v⟩ := p
    by_cases h : a = k <;> simp [lookup_cons1, h, ih]

/-- On a map with duplicate-free keys, membership determines lookup. -/
theorem lookup_of_mem {l : List (α × β)} {a : α} {b : β}
    (hnd : (l.map Prod.fst).Nodup) (hm : (a, b) ∈ l) : l.lookup a = some b := by
  induction l with
  | nil => simp at hm
  | cons p rest ih =>
    obtain ⟨k, v⟩ := p
    simp only [List.map_cons, List.nodup_cons] at hnd
    rcases List.mem_cons.mp hm with h | h
    · cases h; simp [lookup_cons1]
    · have hak : a ≠ k := by
        rintro rfl
        exact hnd.1 (List.mem_map.mpr ⟨(a, b), h, rfl⟩)
      simp [lookup_cons1, hak, ih hnd.2 h]

/-- A successful lookup comes from an entry of the list. -/
theorem mem_of_lookup {l : List (α × β)} {a : α} {b : β}
    (h : l.lookup a = some b) : (a, b) ∈ l := by
  induction l with
  | nil => simp [List.lookup] at h
  | cons p rest ih =>
    obtain ⟨k, v⟩ := p
    by_cases hak : a = k
    · subst hak; simp [lookup_cons1] at h; simp [h]
    · simp only [lookup_cons1, if_neg hak] at h
      exact List.mem_cons_of_mem _ (ih h)

end Base

/-- Lookup after an in-place update at the updated key. -/
theorem lookup_updateTemplate_self (st : List (String × TemplateAcc)) (k : String)
    (f : TemplateAcc → TemplateAcc) :
    (updateTemplate st k f).lookup k = some (f ((st.lookup k).getD ⟨[], []⟩)) := by
  induction st with
  | nil => simp [updateTemplate, lookup_cons1]
  | cons p rest ih =>
    obtain ⟨k1, v1⟩ := p
    by_cases h : k1 = k
    · subst h; simp [updateTemplate, lookup_cons1]
    · have h2 : k ≠ k1 := fun hh => h hh.symm
      simp [updateTemplate, h, lookup_cons1, h2, ih]

/-- Lookup after an in-place update at another key. -/
theorem lookup_updateTemplate_ne (st : List (String × TemplateAcc)) (k tid : String)
    (f : TemplateAcc → TemplateAcc) (h : tid ≠ k) :
    (updateTemplate st k f).lookup tid = st.lookup tid := by
  induction st with
  | nil => simp [updateTemplate, lookup_cons1, h]
  | cons p rest ih =>
    obtain ⟨k1, v1⟩ := p
    by_cases h1 : k1 = k
    · subst h1; simp [updateTemplate, lookup_cons1, h]
    · by_cases h2 : tid = k1 <;> simp [updateTemplate, h1, lookup_cons1, h2, ih]

/-- Keys after an in-place update: unchanged, or the new key appended. -/
theorem keys_updateTemplate (st : List (String × TemplateAcc)) (k : String)
    (f : TemplateAcc → TemplateAcc) :
    (updateTemplate st k f).map Prod.fst =
      if k ∈ st.map Prod.fst then st.map Prod.fst else st.map Prod.fst ++ [k] := by
  induction st with
  | nil => simp [updateTemplate]
  | cons p rest ih =>
    obtain ⟨k1, v1⟩ := p
    by_cases h : k1 = k
    · subst h; simp [updateTemplate]
    · have h2 : k ≠ k1 := fun hh => h hh.symm
      by_cases hm : k ∈ rest.map Prod.fst <;> simp [updateTemplate, h, h2, hm, ih]

/-- In-place update preserves duplicate-freeness of the keys. -/
theorem nodup_keys_updateTemplate {st : List (String × TemplateAcc)} (k : String)
    (f : TemplateAcc → TemplateAcc) (h : (st.map Prod.fst).Nodup) :
    ((updateTemplate st k f).map Prod.fst).Nodup := by
  rw [keys_updateTemplate]
  by_cases hm : k ∈ st.map Prod.fst <;> simp [hm, h, List.nodup_append]

/-- Lookup after a counter bump at the bumped path. -/
theorem lookup_bumpAddition_self (as : List (String × Nat)) (p : String) :
    (bumpAddition as p).lookup p = some (((as.lookup p).getD 0) + 1) := by
  induction as with
  | nil => simp [bumpAddition, lookup_cons1]
  | cons q rest ih =>
    obtain ⟨k, v⟩ := q
    by_cases h : k = p
    · subst h; simp [bumpAddition, lookup_cons1]
    · have h2 : p ≠ k := fun hh => h hh.symm
      simp [bumpAddition, h, lookup_cons1, h2, ih]

/-- Lookup after a counter bump at another path. -/
theorem lookup_bumpAddition_ne (as : List (String × Nat)) (p q : String) (h : q ≠ p) :
    (bumpAddition as p).lookup q = as.lookup q := by
  induction as with
  | nil => simp [bumpAddition, lookup_cons1, h]
  | cons r rest ih =>
    obtain ⟨k, v⟩ := r
    by_cases h1 : k = p
    · subst h1; simp [bumpAddition, lookup_cons1, h]
    · by_cases h2 : q = k <;> simp [bumpAddition, h1, lookup_cons1, h2, ih]

/-- Keys after a counter bump: unchanged, or the new path appended. -/
theorem keys_bumpAddition (as : List (String × Nat)) (p : String) :
    (bumpAddition as p).map Prod.fst =
      if p ∈ as.map Prod.fst then as.map Prod.fst else as.map Prod.fst ++ [p] := by
  induction as with
  | nil => simp [bumpAddition]
  | cons q rest ih =>
    obtain ⟨k, v⟩ := q
    by_cases h : k = p
    · subst h; simp [bumpAddition]
    · have h2 : p ≠ k := fun hh => h hh.symm
      by_cases hm : p ∈ rest.map Prod.fst <;> simp [bumpAddition, h, h2, hm, ih]

/-- Counter bumps keep every stored counter positive. -/
theorem mem_bumpAddition_pos {as : List (String × Nat)} {p : String}
    (h : ∀ pc ∈ as, 1 ≤ pc.2) : ∀ pc ∈ bumpAddition as p, 1 ≤ pc.2 := by
  induction as with
  | nil => simp [bumpAddition]
  | cons q rest ih =>
    obtain ⟨k, v⟩ := q
    intro pc hpc
    by_cases hk : k = p
    · subst hk
      simp [bumpAddition] at hpc
      rcases hpc with h1 | h1
      · subst h1; omega
      · exact h pc (List.mem_cons_of_mem _ h1)
    · simp [bumpAddition, hk] at hpc
      rcases hpc with h1 | h1
      · subst h1; exact h (k, v) (List.mem_cons_self _ _)
      · exact ih (fun x hx => h x (List.mem_cons_of_mem _ hx)) pc h1

/-- Membership in the project set after an insertion. -/
theorem mem_addProject (ps : List String) (q p : String) :
    p ∈ addProject ps q ↔ p ∈ ps ∨ p = q := by
  unfold addProject
  by_cases h : q ∈ ps
  · simp only [if_pos h]
    exact ⟨Or.inl, fun hh => hh.elim id (fun he => he ▸ h)⟩
  · simp [if_neg h]

/-- Insertion keeps the project set duplicate-free. -/
theorem nodup_addProject {ps : List String} (q : String) (h : ps.Nodup) :
    (addProject ps q).Nodup := by
  unfold addProject
  by_cases hq : q ∈ ps
  · simpa [hq]
  · simp [hq, List.nodup_append, h]

/-- The project set is nonempty after an insertion. -/
theorem addProject_ne_nil (ps : List String) (q : String) : addProject ps q ≠ [] := by
  unfold addProject
  by_cases hq : q ∈ ps
  · simpa [hq] using List.ne_nil_of_mem hq
  · simp [hq]

/-- Projection of `applyMod` on the project set. -/
theorem applyMod_projects (m : ModRecord) (acc : TemplateAcc) :
    (applyMod m acc).projects = addProject acc.projects (m.project_path.getD "") := by
  unfold applyMod
  by_cases hb : (m.type == some "directory_added" || m.type == some "file_added") = true <;>
    simp [hb]

/-- Projection of `applyMod` on the counters when the event is an addition. -/
theorem applyMod_additions_pos (m : ModRecord) (acc : TemplateAcc)
    (hb : (m.type == some "directory_added" || m.type == some "file_added") = true) :
    (applyMod m acc).additions = bumpAddition acc.additions (m.path.getD "") := by
  simp [applyMod, hb]

/-- Projection of `applyMod` on the counters when the event is not an addition. -/
theorem applyMod_additions_neg (m : ModRecord) (acc : TemplateAcc)
    (hb : (m.type == some "directory_added" || m.type == some "file_added") = false) :
    (applyMod m acc).additions = acc.additions := by
  simp [applyMod, hb]

/-- Effect of one more event on the counted project paths. -/
theorem projectPathsOf_append (done : List ModRecord) (e : ModRecord) (tid : String) :
    projectPathsOf (done ++ [e]) tid =
      projectPathsOf done tid ++
        (if isCounted tid e then [e.project_path.getD ""] else []) := by
  by_cases h : isCounted tid e <;>
    simp [projectPathsOf, List.filter_append, h]

/-- Effect of one more event on the addition-event count. -/
theorem additionCount_append (done : List ModRecord) (e : ModRecord) (tid path : String) :
    additionCount (done ++ [e]) tid path =
      additionCount done tid path + (if isAddition tid path e then 1 else 0) := by
  by_cases h : isAddition tid path e <;>
    simp [additionCount, List.filter_append, h]

/-- A dropped event is counted for no template. -/
theorem isCounted_false_of_guard {e : ModRecord}
    (h : (truthy e.template_id && truthy e.project_path) = false) (tid : String) :
    isCounted tid e = false := by
  simp only [isCounted]
  rcases Bool.and_eq_false_iff.mp h with h1 | h1 <;> simp [h1]

/-- An event counted for no template bumps no counter. -/
theorem isAddition_eq_false_of_isCounted {e : ModRecord} {tid : String}
    (h : isCounted tid e = false) (path : String) : isAddition tid path e = false := by
  simp [isAddition, h]

/-- A template with no counted project has no addition events either. -/
theorem additionCount_zero_of_paths_nil {done : List ModRecord} {tid : String}
    (h : projectPathsOf done tid = []) (path : String) : additionCount done tid path = 0 := by
  simp only [projectPathsOf, List.map_eq_nil_iff, List.filter_eq_nil_iff] at h
  simp only [additionCount, List.length_eq_zero, List.filter_eq_nil_iff]
  intro m hm hadd
  have hc : isCounted tid m = true := by
    have := hadd
    simp only [isAddition, Bool.and_eq_true] at this
    exact this.1.1
  exact h m hm hc

theorem isCounted_self {e : ModRecord}
    (hg : (truthy e.template_id && truthy e.project_path) = true) :
    isCounted (e.template_id.getD "") e = true := by
  have h12 : truthy e.template_id = true ∧ truthy e.project_path = true := by simpa using hg
  simp [isCounted, h12.1, h12.2]

theorem isCounted_ne {e : ModRecord} {tid : String}
    (h : tid ≠ e.template_id.getD "") : isCounted tid e = false := by
  have hb : (e.template_id.getD "" == tid) = false :=
    beq_eq_false_iff_ne.mpr (fun hh => h hh.symm)
  simp [isCounted, hb]

theorem isAddition_self {e : ModRecord}
    (hg : (truthy e.template_id && truthy e.project_path) = true)
    (hb : (e.type == some "directory_added" || e.type == some "file_added") = true) :
    isAddition (e.template_id.getD "") (e.path.getD "") e = true := by
  simp [isAddition, isCounted_self hg, hb]

theorem isAddition_ne_path {e : ModRecord} {tid path : String}
    (h : path ≠ e.path.getD "") : isAddition tid path e = false := by
  have hb : (e.path.getD "" == path) = false :=
    beq_eq_false_iff_ne.mpr (fun hh => h hh.symm)
  simp [isAddition, hb]

theorem isAddition_not_added {e : ModRecord} {tid path : String}
    (hb : (e.type == some "directory_added" || e.type == some "file_added") = false) :
    isAddition tid path e = false := by
  simp [isAddition, hb]

/-- Counted project paths of a template an event does not belong to are
unchanged by the event. -/
theorem projectPathsOf_untouched {e : ModRecord} {tid : String}
    (done : List ModRecord) (hCf : isCounted tid e = false) :
    projectPathsOf (done ++ [e]) tid = projectPathsOf done tid := by
  rw [projectPathsOf_append, if_neg (by simp [hCf])]
  simp

/-- Addition counts are unchanged by an event that is no addition for the
template and path. -/
theorem additionCount_untouched {e : ModRecord} {tid path : String}
    (done : List ModRecord) (hf : isAddition tid path e = false) :
    additionCount (done ++ [e]) tid path = additionCount done tid path := by
  rw [additionCount_append, if_neg (by simp [hf])]
  omega

/-- An accumulator of a template untouched by an event keeps its invariant. -/
theorem InvAcc_untouched {done : List ModRecord} {e : ModRecord} {tid : String}
    {acc : TemplateAcc} (hCf : isCounted tid e = false) (h : InvAcc done tid acc) :
    InvAcc (done ++ [e]) tid acc := by
  obtain ⟨a1, a2, a3, a4, a5, a6⟩ := h
  refine ⟨a1, ?_, a3, a4, ?_, a6⟩
  · intro p
    rw [projectPathsOf_untouched done hCf]
    exact a2 p
  · intro path
    rw [additionCount_untouched done (isAddition_eq_false_of_isCounted hCf path)]
    exact a5 path

/-- Applying a kept event to its template's accumulator establishes the
invariant extended by the event. -/
theorem InvAcc_applyMod {done : List ModRecord} {e : ModRecord} {acc0 : TemplateAcc}
    (hg : (truthy e.template_id && truthy e.project_path) = true)
    (p1 : acc0.projects.Nodup)
    (p2 : ∀ p, p ∈ acc0.projects ↔ p ∈ projectPathsOf done (e.template_id.getD ""))
    (p4 : (acc0.additions.map Prod.fst).Nodup)
    (p5 : ∀ path, ((acc0.additions.lookup path).getD 0) =
      additionCount done (e.template_id.getD "") path)
    (p6 : ∀ pc ∈ acc0.additions, 1 ≤ pc.2) :
    InvAcc (done ++ [e]) (e.template_id.getD "") (applyMod e acc0) := by
  have hCe : isCounted (e.template_id.getD "") e = true := isCounted_self hg
  have hpaths : projectPathsOf (done ++ [e]) (e.template_id.getD "") =
      projectPathsOf done (e.template_id.getD "") ++ [e.project_path.getD ""] := by
    rw [projectPathsOf_append, if_pos hCe]
  refine ⟨?_, ?_, ?_, ?_, ?_, ?_⟩
  · rw [applyMod_projects]; exact nodup_addProject _ p1
  · intro p
    rw [applyMod_projects, mem_addProject, hpaths]
    simp [p2 p]
  · rw [applyMod_projects]; exact addProject_ne_nil _ _
  · by_cases hb : (e.type == some "directory_added" || e.type == some "file_added") = true
    · rw [applyMod_additions_pos _ _ hb, keys_bumpAddition]
      by_cases hm : e.path.getD "" ∈ acc0.additions.map Prod.fst <;>
        simp [hm, p4, List.nodup_append]
    · rw [applyMod_additions_neg _ _ (by simpa using hb)]; exact p4
  · intro path
    by_cases hb : (e.type == some "directory_added" || e.type == some "file_added") = true
    · rw [applyMod_additions_pos _ _ hb]
      by_cases hpath : path = e.path.getD ""
      · subst hpath
        rw [lookup_bumpAddition_self, additionCount_append, if_pos (isAddition_self hg hb)]
        simp [p5 (e.path.getD "")]
      · rw [lookup_bumpAddition_ne _ _ _ hpath,
          additionCount_untouched done (isAddition_ne_path hpath)]
        exact p5 path
    · rw [applyMod_additions_neg _ _ (by simpa using hb),
        additionCount_untouched done (isAddition_not_added (by simpa using hb))]
      exact p5 path
  · by_cases hb : (e.type == some "directory_added" || e.type == some "file_added") = true
    · rw [applyMod_additions_pos _ _ hb]; exact mem_bumpAddition_pos p6
    · rw [applyMod_additions_neg _ _ (by simpa using hb)]; exact p6

/-- One step of the aggregation loop preserves the invariant. -/
theorem Inv_step {done : List ModRecord} {st : List (String × TemplateAcc)} (e : ModRecord)
    (h : Inv done st) : Inv (done ++ [e]) (processMod st e) := by
  obtain ⟨hnd, hall⟩ := h
  by_cases hg : (truthy e.template_id && truthy e.project_path) = true
  · rw [processMod, if_pos hg]
    refine ⟨nodup_keys_updateTemplate _ _ hnd, ?_⟩
    intro tid
    by_cases htid : tid = e.template_id.getD ""
    · rw [htid, lookup_updateTemplate_self]
      refine ⟨by simp, ?_⟩
      intro acc hacc
      obtain rfl : applyMod e ((st.lookup (e.template_id.getD "")).getD ⟨[], []⟩) = acc := by
        simpa using hacc
      cases hst : st.lookup (e.template_id.getD "") with
      | none =>
        have hemp : projectPathsOf done (e.template_id.getD "") = [] :=
          (hall (e.template_id.getD "")).1 hst
        exact InvAcc_applyMod hg (by simp) (by simp [hemp]) (by simp)
          (fun path => by simp [List.lookup, additionCount_zero_of_paths_nil hemp])
          (by simp)
      | some a =>
        obtain ⟨a1, a2, _, a4, a5, a6⟩ := (hall (e.template_id.getD "")).2 a hst
        exact InvAcc_applyMod hg a1 a2 a4 a5 a6
    · have hCf : isCounted tid e = false := isCounted_ne htid
      rw [lookup_updateTemplate_ne _ _ _ _ htid]
      refine ⟨?_, ?_⟩
      · intro hnone
        rw [projectPathsOf_untouched done hCf]
        exact (hall tid).1 hnone
      · intro acc hacc
        exact InvAcc_untouched hCf ((hall tid).2 acc hacc)
  · have hgf : (truthy e.template_id && truthy e.project_path) = false := by simpa using hg
    have hcf : ∀ tid, isCounted tid e = false := isCounted_false_of_guard hgf
    rw [processMod, if_neg (by simp [hgf])]
    refine ⟨hnd, ?_⟩
    intro tid
    refine ⟨?_, ?_⟩
    · intro hnone
      rw [projectPathsOf_untouched done (hcf tid)]
      exact (hall tid).1 hnone
    · intro acc hacc
      exact InvAcc_untouched (hcf tid) ((hall tid).2 acc hacc)

/-- The aggregation loop establishes the invariant from any invariant
starting point. -/
theorem Inv_foldl (mods : List ModRecord) :
    ∀ (done : List ModRecord) (st : List (String × TemplateAcc)), Inv done st →
      Inv (done ++ mods) (mods.foldl processMod st) := by
  induction mods with
  | nil => intro done st h; simpa using h
  | cons m ms ih =>
    intro done st h
    have h1 : Inv (done ++ [m]) (processMod st m) := Inv_step m h
    have h2 := ih (done ++ [m]) (processMod st m) h1
    simpa using h2

/-- The invariant holds of the fully aggregated accumulator map. -/
theorem Inv_aggregate (mods : List ModRecord) : Inv mods (mods.foldl processMod []) := by
  have h0 : Inv [] [] := by
    refine ⟨by simp, ?_⟩
    intro tid
    exact ⟨fun _ => by simp [projectPathsOf], fun acc hacc => by simp [List.lookup] at hacc⟩
  simpa using Inv_foldl mods [] [] h0

/-- Keys of the aggregated pattern map form a sublist of the accumulator
keys (entries are dropped, never renamed). -/
theorem keys_aggregate_sublist (st : List (String × TemplateAcc)) :
    ((st.filterMap (fun p => (patOf p.2).map (fun q => (p.1, q)))).map Prod.fst).Sublist
      (st.map Prod.fst) := by
  induction st with
  | nil => simp
  | cons p rest ih =>
    obtain ⟨k, a⟩ := p
    cases hpa : patOf a with
    | none => simpa [hpa] using ih.cons k
    | some q => simpa [hpa] using ih.cons₂ k

/-- Lookup in the aggregated pattern map, in terms of the accumulator map
(for duplicate-free keys). -/
theorem lookup_aggregate (st : List (String × TemplateAcc))
    (hnd : (st.map Prod.fst).Nodup) (tid : String) :
    (st.filterMap (fun p => (patOf p.2).map (fun q => (p.1, q)))).lookup tid =
      (st.lookup tid).bind patOf := by
  induction st with
  | nil => simp [List.lookup]
  | cons p rest ih =>
    obtain ⟨k, a⟩ := p
    simp only [List.map_cons, List.nodup_cons] at hnd
    by_cases htid : tid = k
    · subst htid
      cases hpa : patOf a with
      | none =>
        have hrest : rest.lookup tid = none :=
          (lookup_eq_none_iff rest tid).mpr hnd.1
        simp [hpa, lookup_cons1, ih hnd.2, hrest]
      | some q => simp [hpa, lookup_cons1]
    · cases hpa : patOf a with
      | none => simp [hpa, lookup_cons1, htid, ih hnd.2]
      | some q => simp [hpa, lookup_cons1, htid, ih hnd.2]

/-- Characterisation of a successful lookup in the aggregated patterns. -/
theorem aggregate_lookup_eq_some {mods : List ModRecord} {tid : String}
    {data : TemplatePattern}
    (h : (aggregate_modifications mods).lookup tid = some data) :
    ∃ acc, (mods.foldl processMod []).lookup tid = some acc ∧ patOf acc = some data := by
  have hInv := Inv_aggregate mods
  rw [aggregate_modifications, lookup_aggregate _ hInv.1] at h
  cases hst : (mods.foldl processMod []).lookup tid with
  | none => rw [hst] at h; simp at h
  | some acc =>
    rw [hst] at h
    exact ⟨acc, rfl, by simpa using h⟩

/-- Unpacking of a successful `patOf`. -/
theorem patOf_eq_some {acc : TemplateAcc} {data : TemplatePattern}
    (h : patOf acc = some data) :
    acc.projects.length ≠ 0 ∧ data.total_projects = acc.projects.length ∧
      data.additions = acc.additions.map (fun pc =>
        (pc.1, { count := pc.2
                 adoption_rate := (pc.2 : ℚ) / (acc.projects.length : ℚ) })) := by
  by_cases hl : acc.projects.length = 0
  · simp [patOf, hl] at h
  · rw [patOf, if_neg hl] at h
    obtain rfl := (Option.some_inj.mp h).symm
    exact ⟨hl, rfl, rfl⟩

/-- The aggregated pattern map has an entry for every template with at
least one counted event. -/
theorem aggregate_lookup_isSome {mods : List ModRecord} {tid : String}
    (hne : projectPathsOf mods tid ≠ []) :
    ∃ data, (aggregate_modifications mods).lookup tid = some data := by
  have hInv := Inv_aggregate mods
  rw [aggregate_modifications, lookup_aggregate _ hInv.1]
  cases hst : (mods.foldl processMod []).lookup tid with
  | none => exact absurd ((hInv.2 tid).1 hst) hne
  | some acc =>
    have hacc := (hInv.2 tid).2 acc hst
    have hnil : acc.projects ≠ [] := hacc.2.2.1
    have hlen : acc.projects.length ≠ 0 := fun hh => hnil (List.length_eq_zero.mp hh)
    refine ⟨{ total_projects := acc.projects.length
              additions := acc.additions.map (fun pc =>
                (pc.1, { count := pc.2
                         adoption_rate := (pc.2 : ℚ) / (acc.projects.length : ℚ) })) }, ?_⟩
    simp [patOf, hnil]

/-- Helper: `total_projects` of an aggregated entry counts the distinct
`project_path` values of the template's counted events. -/
theorem total_projects_eq_card {mods : List ModRecord} {tid : String}
    {data : TemplatePattern}
    (h : (aggregate_modifications mods).lookup tid = some data) :
    data.total_projects = (projectPathsOf mods tid).toFinset.card := by
  obtain ⟨acc, hst, hpat⟩ := aggregate_lookup_eq_some h
  obtain ⟨hlen, htot, _⟩ := patOf_eq_some hpat
  obtain ⟨a1, a2, _, _, _, _⟩ := ((Inv_aggregate mods).2 tid).2 acc hst
  have hfin : acc.projects.toFinset = (projectPathsOf mods tid).toFinset := by
    ext p
    simp only [List.mem_toFinset]
    exact a2 p
  rw [htot, ← List.toFinset_card_of_nodup a1, hfin]

/-- Helper: per-path statistics of an aggregated entry: the stored count is
the number of addition events (not of distinct projects), it is positive,
and the adoption rate is that count over `total_projects`. -/
theorem additions_char {mods : List ModRecord} {tid path : String}
    {data : TemplatePattern} {s : PathStats}
    (h : (aggregate_modifications mods).lookup tid = some data)
    (hmem : (path, s) ∈ data.additions) :
    s.adoption_rate = (s.count : ℚ) / (data.total_projects : ℚ) ∧
      s.count = additionCount mods tid path ∧ 1 ≤ s.count ∧
      0 ≤ s.adoption_rate ∧ 1 ≤ data.total_projects := by
  obtain ⟨acc, hst, hpat⟩ := aggregate_lookup_eq_some h
  obtain ⟨hlen, htot, hadds⟩ := patOf_eq_some hpat
  obtain ⟨_, _, _, a4, a5, a6⟩ := ((Inv_aggregate mods).2 tid).2 acc hst
  rw [hadds] at hmem
  obtain ⟨pc, hpc, heq⟩ := List.mem_map.mp hmem
  obtain ⟨rfl, rfl⟩ : pc.1 = path ∧
      s = { count := pc.2, adoption_rate := (pc.2 : ℚ) / (acc.projects.length : ℚ) } := by
    have h1 := congrArg Prod.fst heq
    have h2 := congrArg Prod.snd heq
    exact ⟨h1, h2.symm⟩
  have hcnt : pc.2 = additionCount mods tid pc.1 := by
    have hlk : acc.additions.lookup pc.1 = some pc.2 := lookup_of_mem a4 hpc
    have := a5 pc.1
    rw [hlk] at this
    simpa using this
  refine ⟨by rw [htot], hcnt.symm ▸ rfl, a6 pc hpc, ?_, ?_⟩
  · exact div_nonneg (by positivity) (by positivity)
  · rw [htot]
    omega

/-- Helper: the aggregation drops no accumulated template (the
`total_projects == 0` guard is never taken). -/
theorem filterMap_length_all {α β : Type} {f : α → Option β} :
    ∀ l : List α, (∀ x ∈ l, (f x).isSome) → (l.filterMap f).length = l.length := by
  intro l
  induction l with
  | nil => simp
  | cons x xs ih =>
    intro h
    cases hfx : f x with
    | none => exact absurd (h x (by simp)) (by simp [hfx])
    | some y => simp [List.filterMap_cons, hfx, ih (fun z hz => h z (by simp [hz]))]

/-- Helper: the aggregation drops no accumulated template (the
`total_projects == 0` guard is never taken). -/
theorem aggregate_length_eq (mods : List ModRecord) :
    (aggregate_modifications mods).length = (mods.foldl processMod []).length := by
  have hInv := Inv_aggregate mods
  rw [aggregate_modifications]
  apply filterMap_length_all
  intro p hp
  obtain ⟨k, a⟩ := p
  have hlk : (mods.foldl processMod []).lookup k = some a := lookup_of_mem hInv.1 hp
  have hacc := (hInv.2 k).2 a hlk
  have hnil : a.projects ≠ [] := hacc.2.2.1
  simp [patOf, hnil]

/-- Evaluation of the aggregation on a single sample event. -/
theorem aggregate_dup1_eval :
    aggregate_modifications [DupEvent] =
      [("T", { total_projects := 1
               additions := [("a", { count := 1, adoption_rate := 1 })] })] := by
  have h1 : ¬("T" : String) = "" := by decide
  have h2 : ¬("P" : String) = "" := by decide
  norm_num [aggregate_modifications, processMod, truthy, DupEvent, updateTemplate,
    applyMod, addProject, bumpAddition, patOf, h1, h2, List.filterMap_cons,
    List.filterMap_nil]

/-- Evaluation of the aggregation on the duplicated sample event. -/
theorem aggregate_dup2_eval :
    aggregate_modifications [DupEvent, DupEvent] =
      [("T", { total_projects := 1
               additions := [("a", { count := 2, adoption_rate := 2 })] })] := by
  have h1 : ¬("T" : String) = "" := by decide
  have h2 : ¬("P" : String) = "" := by decide
  norm_num [aggregate_modifications, processMod, truthy, DupEvent, updateTemplate,
    applyMod, addProject, bumpAddition, patOf, h1, h2, List.filterMap_cons,
    List.filterMap_nil]

/-- C2 (counterexample): two addition events from the SAME project for the
same path give that path `count = 2` and `adoption_rate = 2`, which is
outside `[0, 1]` and differs from (distinct projects that added the
path) / total_projects `= 1 / 1`. -/
theorem adoption_rate_two_on_duplicate_events :
    aggregate_modifications [DupEvent, DupEvent] =
      [("T", { total_projects := 1
               additions := [("a", { count := 2, adoption_rate := 2 })] })] ∧
    ¬((2 : ℚ) ≤ 1) ∧ ¬((2 : ℚ) = (1 : ℚ) / (1 : ℚ)) :=
  ⟨aggregate_dup2_eval, by norm_num, by norm_num⟩

/-- C2 (amended): each tracked path's stored `count` is the number of
addition EVENTS for that path (so duplicate events from one project are
counted repeatedly), the count is positive, `total_projects` is positive,
and `adoption_rate = count / total_projects` is nonnegative (it may exceed
1 when a project emits duplicate addition events; templates with
`total_projects = 0` produce no entry at all). -/
theorem adoption_rate_eq_event_count_div_projects (mods : List ModRecord)
    (tid path : String) (data : TemplatePattern) (s : PathStats)
    (h : (aggregate_modifications mods).lookup tid = some data)
    (hmem : (path, s) ∈ data.additions) :
    s.adoption_rate = (s.count : ℚ) / (data.total_projects : ℚ) ∧
      s.count = additionCount mods tid path ∧ 1 ≤ s.count ∧
      0 ≤ s.adoption_rate ∧ 1 ≤ data.total_projects :=
  additions_char h hmem

/-- C2 witness: the duplicate-event log instantiates the amended claim. -/
theorem adoption_rate_eq_event_count_div_projects_witness :
    ((2 : ℚ) = ((2 : Nat) : ℚ) / ((1 : Nat) : ℚ) ∧
      (2 : Nat) = additionCount [DupEvent, DupEvent] "T" "a" ∧
      1 ≤ (2 : Nat) ∧ (0 : ℚ) ≤ 2 ∧ 1 ≤ (1 : Nat)) :=
  adoption_rate_eq_event_count_div_projects [DupEvent, DupEvent] "T" "a"
    { total_projects := 1, additions := [("a", { count := 2, adoption_rate := 2 })] }
    { count := 2, adoption_rate := 2 }
    (by rw [aggregate_dup2_eval]; simp [lookup_cons1]) (by simp)

/-- C3: `total_projects` of an aggregated template equals the number of
distinct `project_path` values among its counted events, and processing a
further event from an already-seen project leaves it unchanged. -/
theorem total_projects_eq_distinct_count (mods : List ModRecord) (tid : String)
    (data : TemplatePattern)
    (h : (aggregate_modifications mods).lookup tid = some data) :
    data.total_projects = (projectPathsOf mods tid).toFinset.card ∧
    ∀ e : ModRecord, isCounted tid e = true →
      e.project_path.getD "" ∈ projectPathsOf mods tid →
      ∃ data2, (aggregate_modifications (mods ++ [e])).lookup tid = some data2 ∧
        data2.total_projects = data.total_projects := by
  refine ⟨total_projects_eq_card h, ?_⟩
  intro e hCe hpp
  have hne : projectPathsOf (mods ++ [e]) tid ≠ [] := by
    rw [projectPathsOf_append, if_pos hCe]
    simp
  obtain ⟨data2, hd2⟩ := aggregate_lookup_isSome hne
  refine ⟨data2, hd2, ?_⟩
  rw [total_projects_eq_card hd2, total_projects_eq_card h]
  have hfin : (projectPathsOf (mods ++ [e]) tid).toFinset =
      (projectPathsOf mods tid).toFinset := by
    rw [projectPathsOf_append, if_pos hCe]
    ext p
    simp only [List.toFinset_append, Finset.mem_union, List.mem_toFinset]
    constructor
    · rintro (hp | hp)
      · exact hp
      · simp only [List.mem_singleton] at hp
        exact hp ▸ hpp
    · exact Or.inl
  rw [hfin]

/-- C3 witness: a single-event log, extended by a duplicate of its event. -/
theorem total_projects_eq_distinct_count_witness :
    ((1 : Nat) = (projectPathsOf [DupEvent] "T").toFinset.card ∧
      ∃ data2, (aggregate_modifications ([DupEvent] ++ [DupEvent])).lookup "T" = some data2 ∧
        data2.total_projects = 1) := by
  have h := total_projects_eq_distinct_count [DupEvent] "T"
    { total_projects := 1, additions := [("a", { count := 1, adoption_rate := 1 })] }
    (by rw [aggregate_dup1_eval]; simp [lookup_cons1])
  exact ⟨h.1, h.2 DupEvent (by decide) (by decide)⟩

/-- C10: every aggregated template has `total_projects ≥ 1`, and the
`total_projects == 0` guard of the source never drops an entry (the
aggregated map is as long as the accumulator map). -/
theorem total_projects_positive (mods : List ModRecord) :
    (∀ tid data, (aggregate_modifications mods).lookup tid = some data →
      1 ≤ data.total_projects) ∧
    (aggregate_modifications mods).length = (mods.foldl processMod []).length := by
  refine ⟨?_, aggregate_length_eq mods⟩
  intro tid data h
  obtain ⟨acc, hst, hpat⟩ := aggregate_lookup_eq_some h
  obtain ⟨hlen, htot, _⟩ := patOf_eq_some hpat
  rw [htot]
  omega

/-- C10 witness: the single-event log has an entry with one project. -/
theorem total_projects_positive_witness :
    1 ≤ ({ total_projects := 1
           additions := [("a", { count := 1, adoption_rate := 1 })] } :
      TemplatePattern).total_projects :=
  (total_projects_positive [DupEvent]).1 "T"
    { total_projects := 1, additions := [("a", { count := 1, adoption_rate := 1 })] }
    (by rw [aggregate_dup1_eval]; simp [lookup_cons1])

/-- Keys present after an outcome bump. -/
theorem keys_bumpOutcome (st : List (String × Nat × Nat)) (t : String) (w : Bool)
    (k : String) :
    k ∈ (bumpOutcome st t w).map Prod.fst ↔ k ∈ st.map Prod.fst ∨ k = t := by
  induction st with
  | nil => simp [bumpOutcome]
  | cons p rest ih =>
    obtain ⟨k1, w1, t1⟩ := p
    by_cases h : k1 = t
    · subst h
      simp only [bumpOutcome, if_pos rfl, if_true, List.map_cons, List.mem_cons]
      tauto
    · simp only [bumpOutcome, if_neg h, List.map_cons, List.mem_cons, ih]
      tauto

/-- Keys present after folding the outcome loop. -/
theorem keys_outcome_fold (outs : List OutcomeRecord) :
    ∀ (acc : List (String × Nat × Nat)) (k : String),
      (k ∈ (outs.foldl (fun st o =>
        if truthy o.template_id then
          bumpOutcome st (o.template_id.getD "") (o.outcome == some "win")
        else st) acc).map Prod.fst) ↔
      k ∈ acc.map Prod.fst ∨
        ∃ o ∈ outs, truthy o.template_id = true ∧ o.template_id.getD "" = k := by
  induction outs with
  | nil => simp
  | cons o os ih =>
    intro acc k
    rw [List.foldl_cons, ih]
    by_cases ho : truthy o.template_id = true
    · rw [if_pos ho, keys_bumpOutcome]
      constructor
      · rintro ((h | h) | h)
        · exact Or.inl h
        · exact Or.inr ⟨o, by simp, ho, h.symm⟩
        · obtain ⟨o2, ho2, h1, h2⟩ := h
          exact Or.inr ⟨o2, by simp [ho2], h1, h2⟩
      · rintro (h | ⟨o2, ho2, h1, h2⟩)
        · exact Or.inl (Or.inl h)
        · rcases List.mem_cons.mp ho2 with rfl | ho2
          · exact Or.inl (Or.inr h2.symm)
          · exact Or.inr ⟨o2, ho2, h1, h2⟩
    · rw [if_neg ho]
      constructor
      · rintro (h | ⟨o2, ho2, h1, h2⟩)
        · exact Or.inl h
        · exact Or.inr ⟨o2, by simp [ho2], h1, h2⟩
      · rintro (h | ⟨o2, ho2, h1, h2⟩)
        · exact Or.inl h
        · rcases List.mem_cons.mp ho2 with rfl | ho2
          · exact absurd h1 ho
          · exact Or.inr ⟨o2, ho2, h1, h2⟩

/-- Keys of the computed win-rate map are the truthy template ids of the
outcome log. -/
theorem keys_load_template_outcomes (outs : List OutcomeRecord) (k : String) :
    (k ∈ (load_template_outcomes outs).map Prod.fst) ↔
      ∃ o ∈ outs, truthy o.template_id = true ∧ o.template_id.getD "" = k := by
  rw [load_template_outcomes]
  have hmapfst : ∀ l : List (String × Nat × Nat),
      (l.map (fun kwt =>
        (kwt.1, if 0 < kwt.2.2 then (kwt.2.1 : ℚ) / (kwt.2.2 : ℚ) else 1 / 2))).map Prod.fst =
      l.map Prod.fst := by
    intro l
    induction l with
    | nil => rfl
    | cons p rest ih => simp [ih]
  rw [hmapfst]
  simpa using keys_outcome_fold outs [] k

/-- Keys present after a confidence assignment. -/
theorem keys_setConfidence (m : List (Option String × ℚ)) (k0 : Option String) (v : ℚ)
    (k : Option String) :
    k ∈ (setConfidence m k0 v).map Prod.fst ↔ k ∈ m.map Prod.fst ∨ k = k0 := by
  induction m with
  | nil => simp [setConfidence]
  | cons p rest ih =>
    obtain ⟨k1, v1⟩ := p
    by_cases h : k1 = k0
    · subst h
      simp only [setConfidence, if_pos rfl, if_true, List.map_cons, List.mem_cons]
      tauto
    · simp only [setConfidence, if_neg h, List.map_cons, List.mem_cons, ih]
      tauto

/-- Keys of the confidence map are the template ids of its entries. -/
theorem keys_load_confidence_scores (confs : List ConfRecord) (k : Option String) :
    (k ∈ (load_confidence_scores confs).map Prod.fst) ↔
      ∃ s ∈ confs, s.template_id = k := by
  rw [load_confidence_scores]
  suffices h : ∀ acc : List (Option String × ℚ),
      (k ∈ (confs.foldl (fun m s =>
        setConfidence m s.template_id (s.confidence_score.getD 0)) acc).map Prod.fst) ↔
      k ∈ acc.map Prod.fst ∨ ∃ s ∈ confs, s.template_id = k by
    simpa using h []
  induction confs with
  | nil => simp
  | cons c cs ih =>
    intro acc
    rw [List.foldl_cons, ih, keys_setConfidence]
    constructor
    · rintro ((h | h) | ⟨s, hs, h⟩)
      · exact Or.inl h
      · exact Or.inr ⟨c, by simp, h.symm⟩
      · exact Or.inr ⟨s, by simp [hs], h⟩
    · rintro (h | ⟨s, hs, h⟩)
      · exact Or.inl (Or.inl h)
      · rcases List.mem_cons.mp hs with rfl | hs
        · exact Or.inl (Or.inr h.symm)
        · exact Or.inr ⟨s, hs, h⟩

/-- C4: a template with no record in the outcome log gets win rate exactly
`0.5` from the proposal generator's lookup, and a template absent from the
confidence source gets confidence exactly `0.0`. -/
theorem default_win_rate_and_confidence (outs : List OutcomeRecord)
    (confs : List ConfRecord) (tid : String) :
    ((∀ o ∈ outs, ¬(truthy o.template_id = true ∧ o.template_id.getD "" = tid)) →
      usedWinRate (load_template_outcomes outs) tid = 1 / 2) ∧
    ((∀ s ∈ confs, s.template_id ≠ some tid) →
      usedConfidence (load_confidence_scores confs) tid = 0) := by
  constructor
  · intro h
    have hnone : (load_template_outcomes outs).lookup tid = none := by
      rw [lookup_eq_none_iff, keys_load_template_outcomes]
      rintro ⟨o, ho, h1, h2⟩
      exact h o ho ⟨h1, h2⟩
    simp [usedWinRate, hnone]
  · intro h
    have hnone : (load_confidence_scores confs).lookup (some tid) = none := by
      rw [lookup_eq_none_iff, keys_load_confidence_scores]
      rintro ⟨s, hs, h1⟩
      exact h s hs h1
    simp [usedConfidence, hnone]

/-- C4 witness: empty logs give the defaults for any template. -/
theorem default_win_rate_and_confidence_witness :
    usedWinRate (load_template_outcomes []) "T1" = 1 / 2 ∧
      usedConfidence (load_confidence_scores []) "T1" = 0 :=
  ⟨(default_win_rate_and_confidence [] [] "T1").1 (by simp),
    (default_win_rate_and_confidence [] [] "T1").2 (by simp)⟩

/-- Evaluation of the rounding on the sample values. -/
theorem round4_one : round4 1 = 1 := by
  norm_num [round4, roundHalfEven]

/-- Evaluation of the rounding on `0.8`. -/
theorem round4_fourFifths : round4 (4 / 5) = 4 / 5 := by
  norm_num [round4, roundHalfEven]

/-- Evaluation of the version bump of the fixed current version. -/
theorem bumpVersion_100_getD : (bumpVersion "1.0.0").getD "" = "1.1.0" := by decide

/-- Every emitted proposal carries the fixed current version and its
minor-bumped successor. -/
theorem genAux_version (wr : List (String × ℚ)) (cs : List (Option String × ℚ)) :
    ∀ (pats : List (String × TemplatePattern)) (pid : Nat) (pr : Proposal),
      pr ∈ genAux wr cs pats pid →
      pr.current_version = "1.0.0" ∧ pr.proposed_version = "1.1.0" := by
  intro pats
  induction pats with
  | nil => intro pid pr h; simp [genAux] at h
  | cons p rest ih =>
    obtain ⟨ktid, d⟩ := p
    intro pid pr h
    rw [genAux] at h
    by_cases h1 : usedWinRate wr ktid < WIN_RATE_THRESHOLD
    · rw [if_pos h1] at h
      exact ih pid pr h
    · rw [if_neg h1] at h
      by_cases h2 : usedConfidence cs ktid < CONFIDENCE_THRESHOLD
      · rw [if_pos h2] at h
        exact ih pid pr h
      · rw [if_neg h2] at h
        by_cases h3 : (qualifyingChanges d.additions).isEmpty = true
        · rw [if_pos h3] at h
          exact ih pid pr h
        · rw [if_neg h3] at h
          rcases List.mem_cons.mp h with rfl | h
          · exact ⟨rfl, bumpVersion_100_getD⟩
          · exact ih (pid + 1) pr h

/-- C5: every emitted proposal has `current_version = "1.0.0"` and
`proposed_version = "1.1.0"`, which is exactly the minor-incremented,
patch-reset version bump of the current version. -/
theorem proposed_version_bumps_minor (pats : List (String × TemplatePattern))
    (wr : List (String × ℚ)) (cs : List (Option String × ℚ)) (pr : Proposal)
    (h : pr ∈ generate_proposals pats wr cs) :
    pr.current_version = "1.0.0" ∧ pr.proposed_version = "1.1.0" ∧
      bumpVersion pr.current_version = some pr.proposed_version := by
  obtain ⟨hc, hp⟩ := genAux_version wr cs pats 1 pr h
  refine ⟨hc, hp, ?_⟩
  rw [hc, hp]
  decide

/-- Position `k` of the generated list carries counter value `pid + k`
(stated with `get?` to keep the induction free of dependent indices). -/
theorem genAux_getq_id (wr : List (String × ℚ)) (cs : List (Option String × ℚ)) :
    ∀ (pats : List (String × TemplatePattern)) (pid k : Nat) (pr : Proposal),
      (genAux wr cs pats pid).get? k = some pr →
      pr.proposal_id = "PROP-" ++ pad4 (pid + k) := by
  intro pats
  induction pats with
  | nil => intro pid k pr h; simp [genAux] at h
  | cons p rest ih =>
    obtain ⟨ktid, d⟩ := p
    intro pid k pr h
    rw [genAux] at h
    by_cases h1 : usedWinRate wr ktid < WIN_RATE_THRESHOLD
    · rw [if_pos h1] at h
      exact ih pid k pr h
    · rw [if_neg h1] at h
      by_cases h2 : usedConfidence cs ktid < CONFIDENCE_THRESHOLD
      · rw [if_pos h2] at h
        exact ih pid k pr h
      · rw [if_neg h2] at h
        by_cases h3 : (qualifyingChanges d.additions).isEmpty = true
        · rw [if_pos h3] at h
          exact ih pid k pr h
        · rw [if_neg h3] at h
          cases k with
          | zero =>
            obtain rfl : mkProposal pid ktid d (usedWinRate wr ktid)
                (usedConfidence cs ktid) (qualifyingChanges d.additions) = pr := by
              simpa using h
            rfl
          | succ k1 =>
            have hk : (genAux wr cs rest (pid + 1)).get? k1 = some pr := by
              simpa using h
            have harith : pid + 1 + k1 = pid + (k1 + 1) := by omega
            rw [ih (pid + 1) k1 pr hk, harith]

/-- C6: the proposal at position `k` (0-based) of a run's output carries
the id `"PROP-"` followed by the 4-digit zero-padded counter `k + 1`:
ids are sequential in iteration order, starting at 1, with no gaps and no
reuse. -/
theorem proposal_ids_sequential (pats : List (String × TemplatePattern))
    (wr : List (String × ℚ)) (cs : List (Option String × ℚ)) (k : Nat)
    (h : k < (generate_proposals pats wr cs).length) :
    ((generate_proposals pats wr cs).get ⟨k, h⟩).proposal_id = "PROP-" ++ pad4 (k + 1) := by
  have hq : (generate_proposals pats wr cs).get? k =
      some ((generate_proposals pats wr cs).get ⟨k, h⟩) := List.get?_eq_get h
  have harith : 1 + k = k + 1 := Nat.add_comm 1 k
  rw [genAux_getq_id wr cs pats 1 k _ hq, harith]

/-- A template has qualifying changes iff some tracked path reaches the
adoption threshold. -/
theorem qualifyingChanges_ne_nil_iff (adds : List (String × PathStats)) :
    qualifyingChanges adds ≠ [] ↔
      ∃ ps ∈ adds, ADOPTION_THRESHOLD ≤ (ps.2).adoption_rate := by
  rw [qualifyingChanges, Ne, List.filterMap_eq_nil_iff]
  push_neg
  constructor
  · rintro ⟨ps, hps, hne⟩
    refine ⟨ps, hps, ?_⟩
    by_contra hlt
    exact hne (by simp [qualifyingChange, hlt])
  · rintro ⟨ps, hps, hle⟩
    exact ⟨ps, hps, by simp [qualifyingChange, hle]⟩

/-- A template contributes a proposal exactly when it appears in the
pattern list and passes all three threshold checks. -/
theorem genAux_mem_iff (wr : List (String × ℚ)) (cs : List (Option String × ℚ)) :
    ∀ (pats : List (String × TemplatePattern)) (pid : Nat) (tid : String),
      (∃ pr ∈ genAux wr cs pats pid, pr.template_id = tid) ↔
      (∃ data, (tid, data) ∈ pats ∧
        WIN_RATE_THRESHOLD ≤ usedWinRate wr tid ∧
        CONFIDENCE_THRESHOLD ≤ usedConfidence cs tid ∧
        qualifyingChanges data.additions ≠ []) := by
  intro pats
  induction pats with
  | nil => intro pid tid; simp [genAux]
  | cons p rest ih =>
    obtain ⟨ktid, d⟩ := p
    intro pid tid
    rw [genAux]
    by_cases h1 : usedWinRate wr ktid < WIN_RATE_THRESHOLD
    · rw [if_pos h1, ih pid tid]
      constructor
      · rintro ⟨data, hmem, hP⟩
        exact ⟨data, List.mem_cons_of_mem _ hmem, hP⟩
      · rintro ⟨data, hmem, hW, hC, hq⟩
        rcases List.mem_cons.mp hmem with heq | hmem
        · injection heq with h4 h5
          subst h4
          exact absurd hW (not_le.mpr h1)
        · exact ⟨data, hmem, hW, hC, hq⟩
    · rw [if_neg h1]
      by_cases h2 : usedConfidence cs ktid < CONFIDENCE_THRESHOLD
      · rw [if_pos h2, ih pid tid]
        constructor
        · rintro ⟨data, hmem, hP⟩
          exact ⟨data, List.mem_cons_of_mem _ hmem, hP⟩
        · rintro ⟨data, hmem, hW, hC, hq⟩
          rcases List.mem_cons.mp hmem with heq | hmem
          · injection heq with h4 h5
            subst h4
            exact absurd hC (not_le.mpr h2)
          · exact ⟨data, hmem, hW, hC, hq⟩
      · rw [if_neg h2]
        by_cases h3 : (qualifyingChanges d.additions).isEmpty = true
        · rw [if_pos h3, ih pid tid]
          have hnil : qualifyingChanges d.additions = [] := List.isEmpty_iff.mp h3
          constructor
          · rintro ⟨data, hmem, hP⟩
            exact ⟨data, List.mem_cons_of_mem _ hmem, hP⟩
          · rintro ⟨data, hmem, hW, hC, hq⟩
            rcases List.mem_cons.mp hmem with heq | hmem
            · injection heq with h4 h5
              subst h4
              subst h5
              exact absurd hnil hq
            · exact ⟨data, hmem, hW, hC, hq⟩
        · rw [if_neg h3]
          have hne : qualifyingChanges d.additions ≠ [] := by
            intro hh
            exact h3 (List.isEmpty_iff.mpr hh)
          constructor
          · rintro ⟨pr, hpr, htid⟩
            rcases List.mem_cons.mp hpr with rfl | hpr
            · have hkt : ktid = tid := htid
              subst hkt
              exact ⟨d, List.mem_cons_self _ _, not_lt.mp h1, not_lt.mp h2, hne⟩
            · obtain ⟨data, hmem, hP⟩ := (ih (pid + 1) tid).mp ⟨pr, hpr, htid⟩
              exact ⟨data, List.mem_cons_of_mem _ hmem, hP⟩
          · rintro ⟨data, hmem, hW, hC, hq⟩
            rcases List.mem_cons.mp hmem with heq | hmem
            · injection heq with h4 h5
              subst h4
              subst h5
              exact ⟨mkProposal pid tid data (usedWinRate wr tid)
                (usedConfidence cs tid) (qualifyingChanges data.additions),
                List.mem_cons_self _ _, rfl⟩
            · obtain ⟨pr, hpr, htid⟩ := (ih (pid + 1) tid).mpr ⟨data, hmem, hW, hC, hq⟩
              exact ⟨pr, List.mem_cons_of_mem _ hpr, htid⟩

/-- Keys of the aggregated pattern map are duplicate-free. -/
theorem aggregate_keys_nodup (mods : List ModRecord) :
    ((aggregate_modifications mods).map Prod.fst).Nodup :=
  ((keys_aggregate_sublist (mods.foldl processMod [])).nodup (Inv_aggregate mods).1)

/-- C1: a full run emits a proposal for a template iff its win rate
(defaulting to 0.5) reaches 0.75, its confidence (defaulting to 0.0)
reaches 0.70, and some tracked addition path of its aggregated pattern has
adoption rate at least 0.70. -/
theorem proposal_emitted_iff_thresholds (mods : List ModRecord)
    (outs : List OutcomeRecord) (confs : List ConfRecord) (tid : String) :
    (∃ pr ∈ generate_proposals (aggregate_modifications mods)
        (load_template_outcomes outs) (load_confidence_scores confs),
      pr.template_id = tid) ↔
    (WIN_RATE_THRESHOLD ≤ usedWinRate (load_template_outcomes outs) tid ∧
      CONFIDENCE_THRESHOLD ≤ usedConfidence (load_confidence_scores confs) tid ∧
      ∃ data, (aggregate_modifications mods).lookup tid = some data ∧
        ∃ ps ∈ data.additions, ADOPTION_THRESHOLD ≤ (ps.2).adoption_rate) := by
  rw [generate_proposals, genAux_mem_iff]
  constructor
  · rintro ⟨data, hmem, hW, hC, hq⟩
    exact ⟨hW, hC, data, lookup_of_mem (aggregate_keys_nodup mods) hmem,
      (qualifyingChanges_ne_nil_iff data.additions).mp hq⟩
  · rintro ⟨hW, hC, data, hlk, hex⟩
    exact ⟨data, mem_of_lookup hlk, hW, hC,
      (qualifyingChanges_ne_nil_iff data.additions).mpr hex⟩

/-- Evaluation of a full generator run on the sample inputs. -/
theorem sample_run_eval :
    generate_proposals SamplePatterns SampleWinRates SampleConfidence = [SampleProposal] := by
  have hps : pathSuffix "hooks" = "" := by decide
  have hpad : "PROP-" ++ pad4 1 = "PROP-0001" := by decide
  have hqc : qualifyingChanges [("hooks", { count := 1, adoption_rate := 1 })] =
      [{ type := "directory", path := "hooks", adoption_rate := 1, projects_count := 1 }] := by
    norm_num [qualifyingChanges, qualifyingChange, ADOPTION_THRESHOLD, hps, round4_one,
      List.filterMap_cons, List.filterMap_nil]
  norm_num [generate_proposals, genAux, SamplePatterns, SampleWinRates, SampleConfidence,
    usedWinRate, usedConfidence, lookup_cons1, WIN_RATE_THRESHOLD, CONFIDENCE_THRESHOLD,
    mkProposal, SampleProposal, hqc, hpad, round4_fourFifths, bumpVersion_100_getD]

/-- C5 witness: the sample run's proposal instantiates the version claim. -/
theorem proposed_version_bumps_minor_witness :
    SampleProposal.current_version = "1.0.0" ∧ SampleProposal.proposed_version = "1.1.0" ∧
      bumpVersion SampleProposal.current_version = some SampleProposal.proposed_version :=
  proposed_version_bumps_minor SamplePatterns SampleWinRates SampleConfidence SampleProposal
    (by rw [sample_run_eval]; exact List.mem_cons_self _ _)

/-- C6 witness: the sample run's only proposal carries id `PROP-0001`. -/
theorem proposal_ids_sequential_witness :
    ((generate_proposals SamplePatterns SampleWinRates SampleConfidence).get
      ⟨0, by rw [sample_run_eval]; decide⟩).proposal_id = "PROP-" ++ pad4 (0 + 1) :=
  proposal_ids_sequential SamplePatterns SampleWinRates SampleConfidence 0
    (by rw [sample_run_eval]; decide)

/-- The line loop of `load_jsonl` keeps, in order, exactly the parseable
non-blank lines. -/
theorem load_jsonl_eq_filterMap {α : Type} (lines : List String)
    (parseLine : String → Option α) :
    load_jsonl (some lines) parseLine =
      (lines.filter (fun l => pyStrip l ≠ "")).filterMap parseLine := by
  rw [load_jsonl]
  suffices h : ∀ (ls : List String) (acc : List α),
      ls.foldl (fun records line =>
        if pyStrip line ≠ "" then
          match parseLine line with
          | some r => records ++ [r]
          | none => records
        else records) acc =
      acc ++ (ls.filter (fun l => pyStrip l ≠ "")).filterMap parseLine by
    simpa using h lines []
  intro ls
  induction ls with
  | nil => intro acc; simp
  | cons l rest ih =>
    intro acc
    simp only [List.foldl_cons]
    by_cases hl : pyStrip l = ""
    · have hd : (decide (pyStrip l ≠ "")) = false := by simp [hl]
      rw [if_neg (by simp [hl]), ih acc, List.filter_cons, hd]
      simp
    · have hd : (decide (pyStrip l ≠ "")) = true := by simp [hl]
      rw [if_pos hl]
      cases hp : parseLine l with
      | none =>
        simp only [hp]
        rw [ih acc, List.filter_cons, hd]
        simp [List.filterMap_cons, hp]
      | some r =>
        simp only [hp]
        rw [ih (acc ++ [r]), List.filter_cons, hd]
        simp [List.filterMap_cons, hp]

/-- C7: a line that fails to parse is silently dropped while every other
line is processed normally: the loaded records are exactly the parseable
non-blank lines in order; in particular an invalid line followed by a
valid one yields exactly the valid record. -/
theorem invalid_lines_skipped {α : Type} (lines : List String)
    (parseLine : String → Option α) (bad good : String) (e : α) :
    (load_jsonl (some lines) parseLine =
      (lines.filter (fun l => pyStrip l ≠ "")).filterMap parseLine) ∧
    (parseLine bad = none → parseLine good = some e → pyStrip bad ≠ "" →
      pyStrip good ≠ "" → load_jsonl (some [bad, good]) parseLine = [e]) := by
  refine ⟨load_jsonl_eq_filterMap lines parseLine, ?_⟩
  intro hbad hgood hb hg
  rw [load_jsonl_eq_filterMap]
  simp [hb, hg, hbad, hgood]

/-- C7 witness: a concrete log with one invalid and one valid line. -/
theorem invalid_lines_skipped_witness :
    load_jsonl (some ["bad", "good"]) (fun s => if s = "good" then some 7 else none) =
      [7] :=
  (invalid_lines_skipped ["bad", "good"] (fun s => if s = "good" then some 7 else none)
    "bad" "good" 7).2 (by decide) (by decide) (by decide) (by decide)

/-- C8: a missing input file loads as the empty dataset, and a run on
missing (or empty) inputs writes the empty proposal list and exits with
status 0. -/
theorem missing_inputs_empty_output :
    (∀ {α : Type} (parse : String → Option α), load_jsonl none parse = []) ∧
    load_json (none : Option (List ConfRecord)) = [] ∧
    (∀ (pm : String → Option ModRecord) (po : String → Option OutcomeRecord),
      main none none none pm po = ([], 0)) ∧
    (∀ (pm : String → Option ModRecord) (po : String → Option OutcomeRecord),
      main (some []) (some []) (some []) pm po = ([], 0)) :=
  ⟨fun _ => rfl, rfl, fun _ _ => rfl, fun _ _ => rfl⟩

/-- C9: an addition event carrying `template_id` and `project_path` but no
`path` field is kept and counted under the empty-string path, and when the
template passes the thresholds the emitted change has path `""` and type
`"directory"` (the empty string has no filename extension). -/
theorem missing_path_counted_as_empty (tid pp ty : String)
    (htid : tid ≠ "") (hpp : pp ≠ "")
    (hty : ty = "file_added" ∨ ty = "directory_added") :
    aggregate_modifications
        [{ template_id := some tid, project_path := some pp
           type := some ty, path := none }] =
      [(tid, { total_projects := 1
               additions := [("", { count := 1, adoption_rate := 1 })] })] ∧
    generate_proposals
        (aggregate_modifications
          [{ template_id := some tid, project_path := some pp
             type := some ty, path := none }])
        [(tid, 4 / 5)] [(some tid, 4 / 5)] =
      [{ proposal_id := "PROP-0001", template_id := tid, current_version := "1.0.0"
         proposed_version := "1.1.0"
         changes := [{ type := "directory", path := ""
                       adoption_rate := 1, projects_count := 1 }]
         win_rate := 4 / 5, confidence_score := 4 / 5, total_projects_analyzed := 1
         changes_count := 1, status := "pending" }] := by
  have hbt : (tid == "") = false := beq_eq_false_iff_ne.mpr htid
  have hbp : (pp == "") = false := beq_eq_false_iff_ne.mpr hpp
  have hag : aggregate_modifications
      [{ template_id := some tid, project_path := some pp
         type := some ty, path := none }] =
      [(tid, { total_projects := 1
               additions := [("", { count := 1, adoption_rate := 1 })] })] := by
    rcases hty with rfl | rfl <;>
      norm_num [aggregate_modifications, processMod, truthy, updateTemplate, applyMod,
        addProject, bumpAddition, patOf, hbt, hbp, List.filterMap_cons, List.filterMap_nil]
  refine ⟨hag, ?_⟩
  rw [hag]
  have hps : pathSuffix "" = "" := by decide
  have hpad : "PROP-" ++ pad4 1 = "PROP-0001" := by decide
  have hqc : qualifyingChanges [("", { count := 1, adoption_rate := 1 })] =
      [{ type := "directory", path := "", adoption_rate := 1, projects_count := 1 }] := by
    norm_num [qualifyingChanges, qualifyingChange, ADOPTION_THRESHOLD, hps, round4_one,
      List.filterMap_cons, List.filterMap_nil]
  norm_num [generate_proposals, genAux, usedWinRate, usedConfidence, lookup_cons1,
    WIN_RATE_THRESHOLD, CONFIDENCE_THRESHOLD, mkProposal, hqc, hpad,
    round4_fourFifths, bumpVersion_100_getD]

/-- C9 witness: the concrete no-path event. -/
theorem missing_path_counted_as_empty_witness :
    aggregate_modifications
        [{ template_id := some "T1", project_path := some "P1"
           type := some "file_added", path := none }] =
      [("T1", { total_projects := 1
                additions := [("", { count := 1, adoption_rate := 1 })] })] ∧
    generate_proposals
        (aggregate_modifications
          [{ template_id := some "T1", project_path := some "P1"
             type := some "file_added", path := none }])
        [("T1", 4 / 5)] [(some "T1", 4 / 5)] =
      [{ proposal_id := "PROP-0001", template_id := "T1", current_version := "1.0.0"
         proposed_version := "1.1.0"
         changes := [{ type := "directory", path := ""
                       adoption_rate := 1, projects_count := 1 }]
         win_rate := 4 / 5, confidence_score := 4 / 5, total_projects_analyzed := 1
         changes_count := 1, status := "pending" }] :=
  missing_path_counted_as_empty "T1" "P1" "file_added" (by decide) (by decide) (Or.inl rfl)

end TemplateEvolver
